import Mathlib

/-!
Verification of the multi-tube fly-climbing detection engine.

This file gives a shallow embedding of the Python classes
`MultiTubeFlyDetector` (video_player/multi_tube_detector.py) and the
detection-related methods of `MultiTubeUI` (video_player/multi_tube_ui.py),
and settles the frozen claims about them.

Modelling conventions:
* Python `int` is `ℤ`; Python `float` results (averages, sharpness scores)
  are `ℚ` (exact arithmetic in place of IEEE floats).
* Python lists are Lean `List`s; in-place index assignment `l[i] = v` is
  `l.set i v` and reads are `l.getD i d`.  On well-formed detector states
  (all per-tube lists of length `tube_count`) this agrees with Python,
  which would raise `IndexError` out of range.
* The OpenCV pipeline inside `detect_all_tubes`
  (crop, `absdiff`, `cvtColor`, `threshold`, `morphologyEx`,
  `findContours`, `contourArea`, `moments`) is an external library
  computation; it is abstracted as one pure function ("contour oracle")
  from the frame, the background, the region rectangle and the three
  detection parameters to the list of local centroids of the surviving
  contours.  Everything the detector itself does with those centroids
  (global-coordinate translation, height computation, history/statistic
  updates) is embedded directly from the source.
* Fallible code returns `Except PyError`; `detect_all_tubes` subscripting
  `None` (an unset background) is the `.typeError` outcome.
-/

/-- A rectangle `(x, y, w, h)` in frame coordinates, Python tuple of ints. -/
abbrev Rect : Type := ℤ × ℤ × ℤ × ℤ

/-- A detected fly `(global_x, global_y, height)`. -/
abbrev Blob : Type := ℤ × ℤ × ℤ

/-- Errors the Python interpreter would raise in the embedded fragments.
`typeError` models `TypeError: 'NoneType' object is not subscriptable`. -/
inductive PyError : Type
  | typeError
deriving DecidableEq, Repr

/-- Default genotype labels `管子{i+1}` assigned by `__init__` and
`set_tube_count`. -/
def defaultGenotypeNames (n : ℕ) : List String :=
  (List.range n).map (fun i => "管子" ++ toString (i + 1))

/-- State of `MultiTubeFlyDetector`, one field per attribute set in
`__init__`.  `Img` is the abstract type of video frames. -/
structure MultiTubeFlyDetector (Img : Type) where
  tube_count : ℤ
  tube_regions : List (Option Rect)
  genotype_names : List String
  background_frame : Option Img
  threshold : ℤ
  min_area : ℤ
  max_area : ℤ
  fly_positions : List (Option (ℤ × ℤ))
  climbing_heights : List ℤ
  max_heights : List ℤ
  avg_heights : List ℚ
  detection_history : List (List ℤ)
deriving DecidableEq

/-- `MultiTubeFlyDetector.__init__(tube_count)`. -/
def mkDetector (Img : Type) (tube_count : ℤ := 5) : MultiTubeFlyDetector Img :=
  { tube_count := tube_count
    tube_regions := List.replicate tube_count.toNat none
    genotype_names := defaultGenotypeNames tube_count.toNat
    background_frame := none
    threshold := 15
    min_area := 40
    max_area := 500
    fly_positions := List.replicate tube_count.toNat none
    climbing_heights := List.replicate tube_count.toNat 0
    max_heights := List.replicate tube_count.toNat 0
    avg_heights := List.replicate tube_count.toNat 0
    detection_history := List.replicate tube_count.toNat [] }

/-- `set_tube_count`: unconditionally replaces the count and re-allocates
every per-tube array; no validation is performed and nothing is raised
(the function is total). -/
def set_tube_count {Img : Type} (st : MultiTubeFlyDetector Img) (tube_count : ℤ) :
    MultiTubeFlyDetector Img :=
  { st with
    tube_count := tube_count
    tube_regions := List.replicate tube_count.toNat none
    genotype_names := defaultGenotypeNames tube_count.toNat
    fly_positions := List.replicate tube_count.toNat none
    climbing_heights := List.replicate tube_count.toNat 0
    max_heights := List.replicate tube_count.toNat 0
    avg_heights := List.replicate tube_count.toNat 0
    detection_history := List.replicate tube_count.toNat [] }

/-- `set_tube_region`: guarded by `0 <= tube_index < self.tube_count`;
out-of-range indices fall through silently (no `else` branch in the
source). -/
def set_tube_region {Img : Type} (st : MultiTubeFlyDetector Img)
    (tube_index : ℤ) (region : Rect) : MultiTubeFlyDetector Img :=
  if 0 ≤ tube_index ∧ tube_index < st.tube_count then
    { st with tube_regions := st.tube_regions.set tube_index.toNat (some region) }
  else st

/-- `set_genotype_name`: same silent guard as `set_tube_region`. -/
def set_genotype_name {Img : Type} (st : MultiTubeFlyDetector Img)
    (tube_index : ℤ) (name : String) : MultiTubeFlyDetector Img :=
  if 0 ≤ tube_index ∧ tube_index < st.tube_count then
    { st with genotype_names := st.genotype_names.set tube_index.toNat name }
  else st

/-- `set_background`. -/
def set_background {Img : Type} (st : MultiTubeFlyDetector Img) (bg : Option Img) :
    MultiTubeFlyDetector Img :=
  { st with background_frame := bg }

/-- `get_max_height`: returns the stored maximum for an in-range index and
the default `0` otherwise. -/
def get_max_height {Img : Type} (st : MultiTubeFlyDetector Img) (tube_index : ℤ) : ℤ :=
  if 0 ≤ tube_index ∧ tube_index < st.tube_count then
    st.max_heights.getD tube_index.toNat 0
  else 0

/-- `get_avg_height`: same shape as `get_max_height`. -/
def get_avg_height {Img : Type} (st : MultiTubeFlyDetector Img) (tube_index : ℤ) : ℚ :=
  if 0 ≤ tube_index ∧ tube_index < st.tube_count then
    st.avg_heights.getD tube_index.toNat 0
  else 0

/-- `get_current_height`: same shape as `get_max_height`. -/
def get_current_height {Img : Type} (st : MultiTubeFlyDetector Img) (tube_index : ℤ) : ℤ :=
  if 0 ≤ tube_index ∧ tube_index < st.tube_count then
    st.climbing_heights.getD tube_index.toNat 0
  else 0

/-- Well-formedness of a detector state: every per-tube array has exactly
`tube_count` entries, as guaranteed by `__init__` and `set_tube_count`. -/
def DetectorWF {Img : Type} (st : MultiTubeFlyDetector Img) : Prop :=
  st.tube_regions.length = st.tube_count.toNat ∧
  st.genotype_names.length = st.tube_count.toNat ∧
  st.fly_positions.length = st.tube_count.toNat ∧
  st.climbing_heights.length = st.tube_count.toNat ∧
  st.max_heights.length = st.tube_count.toNat ∧
  st.avg_heights.length = st.tube_count.toNat ∧
  st.detection_history.length = st.tube_count.toNat

instance {Img : Type} (st : MultiTubeFlyDetector Img) : Decidable (DetectorWF st) := by
  unfold DetectorWF; infer_instance

/-- C10: `set_tube_count(n)` never raises (it is a total state update) and
unconditionally discards all per-tube state: regions become unset, labels
revert to their defaults, all height statistics become `0`, and every
tube's detection history is emptied — for every prior state and every
`n`, including `n` equal to the current `tube_count`. -/
theorem set_tube_count_resets_everything {Img : Type}
    (st : MultiTubeFlyDetector Img) (n : ℤ) :
    (set_tube_count st n).tube_count = n ∧
    (set_tube_count st n).tube_regions = List.replicate n.toNat none ∧
    (set_tube_count st n).genotype_names = defaultGenotypeNames n.toNat ∧
    (set_tube_count st n).fly_positions = List.replicate n.toNat none ∧
    (set_tube_count st n).climbing_heights = List.replicate n.toNat 0 ∧
    (set_tube_count st n).max_heights = List.replicate n.toNat 0 ∧
    (set_tube_count st n).avg_heights = List.replicate n.toNat 0 ∧
    (set_tube_count st n).detection_history = List.replicate n.toNat [] ∧
    (set_tube_count st n).background_frame = st.background_frame ∧
    (set_tube_count st n).threshold = st.threshold :=
  ⟨rfl, rfl, rfl, rfl, rfl, rfl, rfl, rfl, rfl, rfl⟩

/-- C4: the code violates the claim.  `set_tube_count(0)` on a fresh
detector does not raise and does not reject the change: it sets
`tube_count` to `0` and empties every per-tube array, so the state after
the call differs from the state before it.  The repository's own test
(`test_set_tube_count`) expects `ValueError` here. -/
theorem set_tube_count_zero_is_accepted :
    (set_tube_count (mkDetector Unit 5) 0).tube_count = 0 ∧
    (set_tube_count (mkDetector Unit 5) 0).tube_regions = [] ∧
    (set_tube_count (mkDetector Unit 5) 0).detection_history = [] ∧
    set_tube_count (mkDetector Unit 5) 0 ≠ mkDetector Unit 5 := by
  refine ⟨rfl, rfl, rfl, ?_⟩
  decide

/-- C3: the code violates the claim.  With `tube_count = 5`, the
out-of-range index `10` (and the negative index `-1`) makes
`set_tube_region` and `set_genotype_name` silent no-ops and makes the
height queries return the default `0`; nothing is raised.  The
repository's own tests expect `IndexError` for these calls. -/
theorem out_of_range_index_is_swallowed :
    set_tube_region (mkDetector Unit 5) 10 (100, 100, 200, 200) = mkDetector Unit 5 ∧
    set_genotype_name (mkDetector Unit 5) 10 "测试基因型" = mkDetector Unit 5 ∧
    set_tube_region (mkDetector Unit 5) (-1) (100, 100, 200, 200) = mkDetector Unit 5 ∧
    get_max_height (mkDetector Unit 5) 10 = 0 ∧
    get_avg_height (mkDetector Unit 5) 10 = 0 ∧
    get_current_height (mkDetector Unit 5) (-1) = 0 := by
  refine ⟨?_, ?_, ?_, rfl, rfl, rfl⟩ <;> decide

/-- The OpenCV pipeline inside `detect_all_tubes` (crop both images to the
region, `absdiff`, grayscale, binary `threshold`, morphological open and
close, `findContours`, area filter, centroid via moments), abstracted as
one pure function: from the frame, the background, the region rectangle
and the three detection parameters to the local centroids `(cx, cy)` of
the surviving contours. -/
abbrev ContourOracle (Img : Type) : Type :=
  Img → Img → Rect → ℤ → ℤ → ℤ → List (ℤ × ℤ)

/-- The loop body of `detect_all_tubes` for one tube index `i`:
an unset region contributes `[]` and leaves the state alone; otherwise the
background is subscripted (raising `TypeError` when it is `None`), the
surviving centroids become global blobs `(x+cx, y+cy, h-cy)`, every blob
height is appended to `detection_history[i]`, and the per-tube statistics
are updated exactly as in the source (first blob as `fly_positions[i]`,
max height as `climbing_heights[i]`, conditional `max_heights[i]` update,
`avg_heights[i] = sum(history)/len(history)`).

The "更新检测结果" block of `detect_all_tubes` (source lines 159-178):
given the blobs found in tube `i` on this pass, set `fly_positions[i]` to
the first blob, `climbing_heights[i]` to the max height, bump
`max_heights[i]` when exceeded, and recompute `avg_heights[i]` from the
history; with no blobs, clear the position and the current height.
It never touches `detection_history`. -/
def updateStats {Img : Type} (st : MultiTubeFlyDetector Img) (i : ℕ)
    (tube_fly_results : List Blob) : MultiTubeFlyDetector Img :=
  match tube_fly_results with
  | [] =>
    { st with
      fly_positions := st.fly_positions.set i none
      climbing_heights := st.climbing_heights.set i 0 }
  | r :: rs =>
    let mx := (rs.map (fun b => b.2.2)).foldl max r.2.2
    let st2 := { st with
      fly_positions := st.fly_positions.set i (some (r.1, r.2.1))
      climbing_heights := st.climbing_heights.set i mx }
    let st3 :=
      if st2.max_heights.getD i 0 < mx then
        { st2 with max_heights := st2.max_heights.set i mx }
      else st2
    let hist3 : List ℤ := st3.detection_history.getD i []
    let avg : ℚ := (hist3.map (fun z => (z : ℚ))).sum / (hist3.length : ℚ)
    if hist3.isEmpty then st3
    else { st3 with avg_heights := st3.avg_heights.set i avg }

def processTube {Img : Type} (o : ContourOracle Img) (frame : Img)
    (st : MultiTubeFlyDetector Img) (i : ℕ) :
    Except PyError (List Blob × MultiTubeFlyDetector Img) :=
  match st.tube_regions.getD i none with
  | none => .ok ([], st)
  | some (x, y, w, h) =>
    match st.background_frame with
    | none => .error .typeError
    | some bg =>
      let cents := o frame bg (x, y, w, h) st.threshold st.min_area st.max_area
      let tube_fly_results : List Blob := cents.map (fun c => (x + c.1, y + c.2, h - c.2))
      let hist := st.detection_history.getD i [] ++ tube_fly_results.map (fun b => b.2.2)
      let st1 := { st with detection_history := st.detection_history.set i hist }
      .ok (tube_fly_results, updateStats st1 i tube_fly_results)

/-- The history-clearing prologue of `detect_all_tubes`
(`for i in range(self.tube_count): self.detection_history[i] = []`). -/
def clear_history {Img : Type} (st : MultiTubeFlyDetector Img) :
    MultiTubeFlyDetector Img :=
  { st with detection_history :=
      (List.range st.tube_count.toNat).foldl (fun hs i => hs.set i []) st.detection_history }

/-- The main loop of `detect_all_tubes` over a list of tube indices,
collecting per-tube result lists; a raised error aborts the call. -/
def detect_tubes_loop {Img : Type} (o : ContourOracle Img) (frame : Img) :
    List ℕ → MultiTubeFlyDetector Img →
    Except PyError (List (List Blob) × MultiTubeFlyDetector Img)
  | [], st => .ok ([], st)
  | i :: is, st =>
    match processTube o frame st i with
    | .error e => .error e
    | .ok (r, st') =>
      match detect_tubes_loop o frame is st' with
      | .error e => .error e
      | .ok (rs, st'') => .ok (r :: rs, st'')

/-- `detect_all_tubes(frame)`: clear every tube's history, then process
tubes `0 .. tube_count-1` in order. -/
def detect_all_tubes {Img : Type} (o : ContourOracle Img)
    (st : MultiTubeFlyDetector Img) (frame : Img) :
    Except PyError (List (List Blob) × MultiTubeFlyDetector Img) :=
  detect_tubes_loop o frame (List.range st.tube_count.toNat) (clear_history st)

/-- C1: the code violates the claim.  `detect_all_tubes` subscripts
`self.background_frame` without the `None` guard its siblings
`_detect_fly_in_tube` and `get_fly_areas` both have, so with the
background unset and any region set it raises `TypeError` instead of
returning empty lists — for every contour oracle.  The part of the claim
about unset regions does hold: with every region unset the call returns
an empty list per tube and touches nothing. -/
theorem detect_all_tubes_background_unset_raises :
    (∀ o : ContourOracle Unit,
      detect_all_tubes o (set_tube_region (mkDetector Unit 5) 0 (0, 0, 10, 10)) () =
        .error .typeError) ∧
    (∀ o : ContourOracle Unit,
      detect_all_tubes o (mkDetector Unit 2) () = .ok ([[], []], mkDetector Unit 2)) :=
  ⟨fun _ => rfl, fun _ => rfl⟩

/-- A contour oracle that always reports one centroid at `(1, 1)`. -/
def c2_oracle : ContourOracle Unit := fun _ _ _ _ _ _ => [(1, 1)]

/-- A one-tube detector with region `(0, 0, 10, 10)` and a background set,
ready for detection. -/
def c2_st0 : MultiTubeFlyDetector Unit :=
  set_background (set_tube_region (mkDetector Unit 1) 0 (0, 0, 10, 10)) (some ())

/-- The state after one `detect_all_tubes` pass with `c2_oracle`. -/
def c2_step (st : MultiTubeFlyDetector Unit) : MultiTubeFlyDetector Unit :=
  match detect_all_tubes c2_oracle st () with
  | .ok (_, st') => st'
  | .error _ => st

/-- The per-tube results of one `detect_all_tubes` pass with `c2_oracle`. -/
def c2_results (st : MultiTubeFlyDetector Unit) : List (List Blob) :=
  match detect_all_tubes c2_oracle st () with
  | .ok (res, _) => res
  | .error _ => []

/-- C2: the code violates the claim.  Two successive `detect_all_tubes`
passes, each observing the single height `9` in tube 0: the second pass's
result is `[[(1,1,9)]]` (observed heights `[9]`), yet the history after
the second pass is `[9]`, not the history after the first pass (`[9]`)
extended with `[9]` — `detect_all_tubes` clears the history at the start
of every call (source comment: 清空当前检测的历史数据，避免叠加). -/
theorem detect_all_tubes_does_not_accumulate :
    c2_results (c2_step c2_st0) = [[(1, 1, 9)]] ∧
    (c2_step (c2_step c2_st0)).detection_history.getD 0 [] = [9] ∧
    (c2_step c2_st0).detection_history.getD 0 [] = [9] ∧
    (c2_step (c2_step c2_st0)).detection_history.getD 0 [] ≠
      (c2_step c2_st0).detection_history.getD 0 [] ++ [9] := by
  refine ⟨rfl, rfl, rfl, ?_⟩
  decide

/-- `getD` after `set` at the same in-range index reads the new value. -/
theorem getD_set_same {α : Type} : ∀ (l : List α) (i : ℕ) (v d : α),
    i < l.length → (l.set i v).getD i d = v
  | _ :: _, 0, _, _, _ => rfl
  | _ :: l, i + 1, v, d, h => getD_set_same l i v d (by simpa using h)

/-- `getD` after `set` at a different index is unchanged. -/
theorem getD_set_other {α : Type} : ∀ (l : List α) (i j : ℕ) (v d : α),
    i ≠ j → (l.set i v).getD j d = l.getD j d
  | [], _, _, _, _, _ => rfl
  | _ :: _, 0, 0, _, _, h => absurd rfl h
  | _ :: _, 0, _ + 1, _, _, _ => rfl
  | _ :: _, _ + 1, 0, _, _, _ => rfl
  | _ :: l, i + 1, j + 1, v, d, h =>
    getD_set_other l i j v d (fun e => h (by omega))

/-- `getD` past the end of the list yields the default. -/
theorem getD_of_length_le {α : Type} : ∀ (l : List α) (i : ℕ) (d : α),
    l.length ≤ i → l.getD i d = d
  | [], _, _, _ => rfl
  | _ :: _, 0, _, h => by simp at h
  | _ :: l, i + 1, d, h => getD_of_length_le l i d (by simpa using h)

/-- Setting a fixed value at each index of a list of indices preserves the
length. -/
theorem foldl_set_const_length {α : Type} (v : α) :
    ∀ (is : List ℕ) (l : List α),
      (is.foldl (fun hs i => hs.set i v) l).length = l.length
  | [], _ => rfl
  | i :: is, l => by
    rw [List.foldl_cons, foldl_set_const_length v is, List.length_set]

/-- Indices not in the set-list keep their old `getD` value. -/
theorem foldl_set_const_getD_not_mem {α : Type} (v d : α) :
    ∀ (is : List ℕ) (l : List α) (j : ℕ), j ∉ is →
      (is.foldl (fun hs i => hs.set i v) l).getD j d = l.getD j d
  | [], _, _, _ => rfl
  | i :: is, l, j, h => by
    rw [List.foldl_cons,
      foldl_set_const_getD_not_mem v d is _ j (fun m => h (List.mem_cons_of_mem i m)),
      getD_set_other l i j v d (fun e => h (e ▸ List.mem_cons_self i is))]

/-- In-range indices in the set-list read the written value afterwards. -/
theorem foldl_set_const_getD_mem {α : Type} (v d : α) :
    ∀ (is : List ℕ) (l : List α) (j : ℕ), j ∈ is → j < l.length →
      (is.foldl (fun hs i => hs.set i v) l).getD j d = v
  | [], _, _, h, _ => absurd h (List.not_mem_nil _)
  | i :: is, l, j, h, hlen => by
    rw [List.foldl_cons]
    by_cases hm : j ∈ is
    · exact foldl_set_const_getD_mem v d is _ j hm (by rw [List.length_set]; exact hlen)
    · have hij : j = i := by
        rcases List.mem_cons.mp h with h' | h'
        · exact h'
        · exact absurd h' hm
      rw [foldl_set_const_getD_not_mem v d is _ j hm, hij,
        getD_set_same l i v d (hij ▸ hlen)]

/-- After the clearing prologue, every tube index below `tube_count` reads
an empty history. -/
theorem clear_history_getD {Img : Type} (st : MultiTubeFlyDetector Img)
    (i : ℕ) (h : i < st.tube_count.toNat) :
    (clear_history st).detection_history.getD i [] = [] := by
  by_cases hl : i < st.detection_history.length
  · exact foldl_set_const_getD_mem [] [] _ _ i (List.mem_range.mpr h) hl
  · exact getD_of_length_le _ i []
      (le_trans (le_of_eq (foldl_set_const_length [] _ _)) (by omega))

/-- Clearing the history preserves its length. -/
theorem clear_history_length {Img : Type} (st : MultiTubeFlyDetector Img) :
    (clear_history st).detection_history.length = st.detection_history.length :=
  foldl_set_const_length [] _ _

/-- `updateStats` never changes `detection_history`. -/
theorem updateStats_detection_history {Img : Type}
    (st : MultiTubeFlyDetector Img) (i : ℕ) (r : List Blob) :
    (updateStats st i r).detection_history = st.detection_history := by
  cases r with
  | nil => rfl
  | cons a l =>
    dsimp only [updateStats]
    split
    · split <;> rfl
    · split <;> rfl

/-- What one loop iteration does to `detection_history`: either the region
is unset and nothing at all happens, or the observed heights of this pass
are appended at index `i`. -/
theorem processTube_history {Img : Type} (o : ContourOracle Img) (frame : Img)
    (st : MultiTubeFlyDetector Img) (i : ℕ) (r : List Blob)
    (st' : MultiTubeFlyDetector Img)
    (h : processTube o frame st i = .ok (r, st')) :
    (r = [] ∧ st' = st) ∨
    st'.detection_history =
      st.detection_history.set i
        (st.detection_history.getD i [] ++ r.map (fun b => b.2.2)) := by
  unfold processTube at h
  rcases hreg : st.tube_regions.getD i none with _ | ⟨x, y, w, hh⟩
  · rw [hreg] at h
    simp only [Except.ok.injEq, Prod.mk.injEq] at h
    exact Or.inl ⟨h.1.symm, h.2.symm⟩
  · rw [hreg] at h
    rcases hbg : st.background_frame with _ | bg
    · rw [hbg] at h; exact absurd h (by simp)
    · rw [hbg] at h
      simp only [Except.ok.injEq, Prod.mk.injEq] at h
      right
      rw [← h.2, updateStats_detection_history]
      rw [← h.1]

/-- One loop iteration preserves the length of `detection_history`. -/
theorem processTube_history_length {Img : Type} (o : ContourOracle Img)
    (frame : Img) (st : MultiTubeFlyDetector Img) (i : ℕ) (r : List Blob)
    (st' : MultiTubeFlyDetector Img)
    (h : processTube o frame st i = .ok (r, st')) :
    st'.detection_history.length = st.detection_history.length := by
  rcases processTube_history o frame st i r st' h with ⟨_, rfl⟩ | heq
  · rfl
  · rw [heq, List.length_set]

/-- Loop invariant of `detect_tubes_loop` over a duplicate-free list of
in-range tube indices: one result list per index, history lengths kept,
untouched indices unchanged, and index `is[k]` ends with its old history
extended by the heights of result `res[k]`. -/
theorem detect_tubes_loop_history {Img : Type} (o : ContourOracle Img)
    (frame : Img) :
    ∀ (is : List ℕ) (st : MultiTubeFlyDetector Img) (res : List (List Blob))
      (st' : MultiTubeFlyDetector Img),
      is.Nodup → (∀ j ∈ is, j < st.detection_history.length) →
      detect_tubes_loop o frame is st = .ok (res, st') →
      res.length = is.length ∧
      st'.detection_history.length = st.detection_history.length ∧
      (∀ j, j ∉ is → st'.detection_history.getD j [] = st.detection_history.getD j []) ∧
      (∀ k, k < is.length →
        st'.detection_history.getD (is.getD k 0) [] =
          st.detection_history.getD (is.getD k 0) [] ++
            ((res.getD k []).map (fun b => b.2.2)))
  | [], st, res, st', _, _, h => by
    simp only [detect_tubes_loop, Except.ok.injEq, Prod.mk.injEq] at h
    obtain ⟨rfl, rfl⟩ := h
    exact ⟨rfl, rfl, fun j _ => rfl, fun k hk => by simp at hk⟩
  | i :: is, st, res, st', hnd, hrange, h => by
    rw [detect_tubes_loop] at h
    rcases hp : processTube o frame st i with e | ⟨r, st1⟩
    · simp only [hp] at h
      exact Except.noConfusion h
    · simp only [hp] at h
      rcases hl : detect_tubes_loop o frame is st1 with e | ⟨rs, st2⟩
      · simp only [hl] at h
        exact Except.noConfusion h
      · simp only [hl, Except.ok.injEq, Prod.mk.injEq] at h
        obtain ⟨hres, hst⟩ := h
        subst hst
        have hnd' := (List.nodup_cons.mp hnd).2
        have hni : i ∉ is := (List.nodup_cons.mp hnd).1
        have hlen1 : st1.detection_history.length = st.detection_history.length :=
          processTube_history_length o frame st i r st1 hp
        have hrange' : ∀ j ∈ is, j < st1.detection_history.length := by
          intro j hj; rw [hlen1]; exact hrange j (List.mem_cons_of_mem i hj)
        obtain ⟨ih1, ih2, ih3, ih4⟩ :=
          detect_tubes_loop_history o frame is st1 rs st2 hnd' hrange' hl
        have hist1 : st1.detection_history.getD i [] =
            st.detection_history.getD i [] ++ (r.map (fun b => b.2.2)) := by
          rcases processTube_history o frame st i r st1 hp with ⟨hr0, hst0⟩ | heq
          · rw [hst0, hr0, List.map_nil, List.append_nil]
          · rw [heq, getD_set_same _ i _ []
              (hrange i (List.mem_cons_self i is))]
        have hist_other : ∀ j, j ≠ i →
            st1.detection_history.getD j [] = st.detection_history.getD j [] := by
          intro j hj
          rcases processTube_history o frame st i r st1 hp with ⟨_, hst0⟩ | heq
          · rw [hst0]
          · rw [heq, getD_set_other _ i j _ [] (fun e => hj e.symm)]
        refine ⟨?_, ?_, ?_, ?_⟩
        · simp [← hres, ih1]
        · rw [ih2, hlen1]
        · intro j hj
          have hj1 : j ∉ is := fun m => hj (List.mem_cons_of_mem i m)
          have hj2 : j ≠ i := fun e => hj (e ▸ List.mem_cons_self i is)
          rw [ih3 j hj1, hist_other j hj2]
        · intro k hk
          cases k with
          | zero =>
            have : st2.detection_history.getD i [] = st1.detection_history.getD i [] :=
              ih3 i hni
            simp only [List.getD_cons_zero, ← hres]
            rw [this, hist1]
          | succ k =>
            have hk' : k < is.length := by simpa using hk
            have hmem : is.getD k 0 ∈ is := by
              have := List.getD_eq_getElem is 0 hk'
              rw [this]; exact List.getElem_mem hk'
            simp only [List.getD_cons_succ, ← hres]
            rw [ih4 k hk', hist_other (is.getD k 0) (fun e => hni (e ▸ hmem))]

/-- C2 (amended): `detect_all_tubes` clears every tube's history at the
start of the call; after a successful pass each region's `DetectionHistory`
contains exactly the heights observed in that pass (so two successive
passes do not accumulate — the history after the second pass is just the
second pass's heights).  History is also cleared by `reset_data` and
`set_tube_count`. -/
theorem detect_all_tubes_history_is_this_pass {Img : Type}
    (o : ContourOracle Img) (st : MultiTubeFlyDetector Img) (frame : Img)
    (res : List (List Blob)) (st' : MultiTubeFlyDetector Img)
    (hwf : DetectorWF st)
    (h : detect_all_tubes o st frame = .ok (res, st')) :
    res.length = st.tube_count.toNat ∧
    ∀ i, i < st.tube_count.toNat →
      st'.detection_history.getD i [] = (res.getD i []).map (fun b => b.2.2) := by
  have hhl : st.detection_history.length = st.tube_count.toNat := hwf.2.2.2.2.2.2
  have hrange : ∀ j ∈ List.range st.tube_count.toNat,
      j < (clear_history st).detection_history.length := by
    intro j hj
    rw [clear_history_length, hhl]
    exact List.mem_range.mp hj
  obtain ⟨h1, _, _, h4⟩ :=
    detect_tubes_loop_history o frame (List.range st.tube_count.toNat)
      (clear_history st) res st' (List.nodup_range _) hrange h
  refine ⟨by rw [h1, List.length_range], ?_⟩
  intro i hi
  have hgi : (List.range st.tube_count.toNat).getD i 0 = i := by
    rw [List.getD_eq_getElem _ 0 (by simpa using hi), List.getElem_range]
  have := h4 i (by simpa using hi)
  rw [hgi] at this
  rw [this, clear_history_getD st i hi, List.nil_append]

/-- Witness for the amended C2 theorem: the concrete two-pass run of the
counterexample, with all hypotheses discharged. -/
theorem detect_all_tubes_history_witness :
    DetectorWF c2_st0 ∧
    ([[((1 : ℤ), (1 : ℤ), (9 : ℤ))]].length = c2_st0.tube_count.toNat ∧
      ∀ i, i < c2_st0.tube_count.toNat →
        (c2_step c2_st0).detection_history.getD i [] =
          (([[((1 : ℤ), (1 : ℤ), (9 : ℤ))]] : List (List Blob)).getD i []).map
            (fun b => b.2.2)) :=
  ⟨by decide,
    detect_all_tubes_history_is_this_pass c2_oracle c2_st0 ()
      [[(1, 1, 9)]] (c2_step c2_st0) (by decide) rfl⟩

/-- `set_tube_regions(regions)`: replace all regions when the lengths
match, overwrite a prefix when fewer are given, truncate when more are
given. -/
def set_tube_regions {Img : Type} (st : MultiTubeFlyDetector Img)
    (regions : List (Option Rect)) : MultiTubeFlyDetector Img :=
  if regions.length = st.tube_count.toNat then
    { st with tube_regions := regions }
  else if regions.length < st.tube_count.toNat then
    { st with tube_regions := regions ++ st.tube_regions.drop regions.length }
  else
    { st with tube_regions := regions.take st.tube_count.toNat }

/-- One row of the list built by `compare_genotypes` (the Python dict with
keys `name`, `index`, `max_height`, `avg_height`, `current_height`). -/
structure GenotypeEntry where
  name : String
  index : ℕ
  max_height : ℤ
  avg_height : ℚ
  current_height : ℤ
deriving DecidableEq, Repr

/-- The entry `compare_genotypes` would build for tube `i`. -/
def entryOf {Img : Type} (st : MultiTubeFlyDetector Img) (i : ℕ) : GenotypeEntry :=
  { name := st.genotype_names.getD i ""
    index := i
    max_height := st.max_heights.getD i 0
    avg_height := st.avg_heights.getD i 0
    current_height := st.climbing_heights.getD i 0 }

/-- The accumulation loop of `compare_genotypes`: one entry per tube whose
region is set (`is not None`) and whose detection history is non-empty, in
index order. -/
def genotype_entries {Img : Type} (st : MultiTubeFlyDetector Img) :
    List GenotypeEntry :=
  (List.range st.tube_count.toNat).filterMap (fun i =>
    if (st.tube_regions.getD i none).isSome ∧ st.detection_history.getD i [] ≠ [] then
      some (entryOf st i)
    else none)

/-- Stable insertion for a descending sort on `avg_height`: the new
element passes over exactly the entries with strictly greater average, so
equal averages keep their original relative order. -/
def insertByAvgDesc (x : GenotypeEntry) : List GenotypeEntry → List GenotypeEntry
  | [] => [x]
  | y :: ys =>
    if y.avg_height ≤ x.avg_height then x :: y :: ys
    else y :: insertByAvgDesc x ys

/-- Stable descending sort on `avg_height`.  Python's
`list.sort(key=lambda x: x['avg_height'], reverse=True)` is a stable sort,
and a stable sort's output is the unique permutation that is non-increasing
on the key and preserves the relative order of equal keys; this insertion
sort produces exactly that permutation. -/
def sortByAvgDesc (l : List GenotypeEntry) : List GenotypeEntry :=
  l.foldr insertByAvgDesc []

/-- `compare_genotypes()`. -/
def compare_genotypes {Img : Type} (st : MultiTubeFlyDetector Img) :
    List GenotypeEntry :=
  sortByAvgDesc (genotype_entries st)

/-- The order `compare_genotypes` is claimed to produce: strictly greater
average first; equal averages in ascending original tube index. -/
def GenotypeOrder (a b : GenotypeEntry) : Prop :=
  b.avg_height < a.avg_height ∨ (a.avg_height = b.avg_height ∧ a.index < b.index)

/-- Insertion permutes. -/
theorem insertByAvgDesc_perm (x : GenotypeEntry) :
    ∀ l : List GenotypeEntry, (insertByAvgDesc x l).Perm (x :: l)
  | [] => List.Perm.refl _
  | y :: ys => by
    rw [insertByAvgDesc]
    split
    · exact List.Perm.refl _
    · exact ((insertByAvgDesc_perm x ys).cons y).trans (List.Perm.swap x y ys)

/-- The sort permutes. -/
theorem sortByAvgDesc_perm : ∀ l : List GenotypeEntry, (sortByAvgDesc l).Perm l
  | [] => List.Perm.refl _
  | x :: xs =>
    (insertByAvgDesc_perm x (sortByAvgDesc xs)).trans ((sortByAvgDesc_perm xs).cons x)

/-- Inserting an element whose original position is after everything in the
list preserves the combined sortedness-and-stability order. -/
theorem insertByAvgDesc_pairwise (x : GenotypeEntry) :
    ∀ l : List GenotypeEntry, l.Pairwise GenotypeOrder →
      (∀ y ∈ l, x.index < y.index) →
      (insertByAvgDesc x l).Pairwise GenotypeOrder
  | [], _, _ => List.pairwise_singleton _ _
  | y :: ys, hl, hx => by
    rw [insertByAvgDesc]
    obtain ⟨hy, hys⟩ := List.pairwise_cons.mp hl
    split
    · rename_i hle
      refine List.pairwise_cons.mpr ⟨?_, hl⟩
      intro z hz
      rcases List.mem_cons.mp hz with rfl | hz'
      · rcases lt_or_eq_of_le hle with hlt | heq
        · exact Or.inl hlt
        · exact Or.inr ⟨heq.symm, hx z (List.mem_cons_self _ _)⟩
      · have hzx : z.avg_height ≤ x.avg_height := by
          rcases hy z hz' with h1 | ⟨h1, _⟩
          · exact le_trans (le_of_lt h1) hle
          · exact h1 ▸ hle
        rcases lt_or_eq_of_le hzx with hlt | heq
        · exact Or.inl hlt
        · exact Or.inr ⟨heq.symm, hx z (List.mem_cons_of_mem y hz')⟩
    · rename_i hgt
      push_neg at hgt
      refine List.pairwise_cons.mpr ⟨?_, ?_⟩
      · intro z hz
        have hz' := (insertByAvgDesc_perm x ys).mem_iff.mp hz
        rcases List.mem_cons.mp hz' with rfl | hz''
        · exact Or.inl hgt
        · exact hy z hz''
      · exact insertByAvgDesc_pairwise x ys hys
          (fun z hz => hx z (List.mem_cons_of_mem y hz))

/-- Sorting a list whose entries appear in strictly increasing original
index order yields a list ordered by `GenotypeOrder`: non-increasing
averages, equal averages in ascending index order. -/
theorem sortByAvgDesc_pairwise :
    ∀ l : List GenotypeEntry, l.Pairwise (fun a b => a.index < b.index) →
      (sortByAvgDesc l).Pairwise GenotypeOrder
  | [], _ => List.Pairwise.nil
  | x :: xs, h => by
    obtain ⟨hx, hxs⟩ := List.pairwise_cons.mp h
    exact insertByAvgDesc_pairwise x (sortByAvgDesc xs)
      (sortByAvgDesc_pairwise xs hxs)
      (fun y hy => hx y ((sortByAvgDesc_perm xs).mem_iff.mp hy))

/-- `filterMap` maps a pairwise relation through. -/
theorem pairwise_filterMap_of_pairwise {α β : Type} (f : α → Option β)
    (R : α → α → Prop) (S : β → β → Prop)
    (h : ∀ a b x y, R a b → f a = some x → f b = some y → S x y) :
    ∀ l : List α, l.Pairwise R → (l.filterMap f).Pairwise S
  | [], _ => List.Pairwise.nil
  | a :: l, hp => by
    obtain ⟨ha, hl⟩ := List.pairwise_cons.mp hp
    rw [List.filterMap_cons]
    cases hfa : f a with
    | none => exact pairwise_filterMap_of_pairwise f R S h l hl
    | some x =>
      refine List.pairwise_cons.mpr ⟨?_, pairwise_filterMap_of_pairwise f R S h l hl⟩
      intro y hy
      obtain ⟨b, hb, hfb⟩ := List.mem_filterMap.mp hy
      exact h a b x y (ha b hb) hfa hfb

/-- The entries are built in strictly increasing tube-index order. -/
theorem genotype_entries_index_sorted {Img : Type} (st : MultiTubeFlyDetector Img) :
    (genotype_entries st).Pairwise (fun a b => a.index < b.index) := by
  refine pairwise_filterMap_of_pairwise _ (· < ·) _ ?_ _ (List.pairwise_lt_range _)
  intro a b x y hab hfa hfb
  have hxa : x.index = a := by
    by_cases hc : (st.tube_regions.getD a none).isSome ∧ st.detection_history.getD a [] ≠ []
    · rw [if_pos hc] at hfa
      cases hfa; rfl
    · rw [if_neg hc] at hfa; cases hfa
  have hyb : y.index = b := by
    by_cases hc : (st.tube_regions.getD b none).isSome ∧ st.detection_history.getD b [] ≠ []
    · rw [if_pos hc] at hfb
      cases hfb; rfl
    · rw [if_neg hc] at hfb; cases hfb
  rw [hxa, hyb]; exact hab

/-- Membership in the entry list characterized. -/
theorem mem_genotype_entries {Img : Type} (st : MultiTubeFlyDetector Img)
    (e : GenotypeEntry) :
    e ∈ genotype_entries st ↔
      e.index < st.tube_count.toNat ∧
      (st.tube_regions.getD e.index none).isSome ∧
      st.detection_history.getD e.index [] ≠ [] ∧
      e = entryOf st e.index := by
  constructor
  · intro h
    obtain ⟨i, hi, hfi⟩ := List.mem_filterMap.mp h
    by_cases hc : (st.tube_regions.getD i none).isSome ∧ st.detection_history.getD i [] ≠ []
    · rw [if_pos hc] at hfi
      cases hfi
      exact ⟨List.mem_range.mp hi, hc.1, hc.2, rfl⟩
    · rw [if_neg hc] at hfi; cases hfi
  · rintro ⟨hi, h1, h2, he⟩
    refine List.mem_filterMap.mpr ⟨e.index, List.mem_range.mpr hi, ?_⟩
    rw [if_pos ⟨h1, h2⟩, ← he]

/-- On a list with strictly increasing indices, a present index is counted
exactly once. -/
theorem countP_index_eq_one :
    ∀ (l : List GenotypeEntry), l.Pairwise (fun a b => a.index < b.index) →
      ∀ i : ℕ, (∃ e ∈ l, e.index = i) → l.countP (fun e => e.index == i) = 1
  | [], _, i, h => by simp at h
  | a :: l, hp, i, h => by
    obtain ⟨ha, hl⟩ := List.pairwise_cons.mp hp
    by_cases hai : a.index = i
    · rw [List.countP_cons_of_pos _ _ (by simpa using hai)]
      have : l.countP (fun e => e.index == i) = 0 := by
        rw [List.countP_eq_zero]
        intro e he
        have := ha e he
        simp only [beq_iff_eq]
        omega
      rw [this]
    · rw [List.countP_cons_of_neg _ _ (by simpa using hai)]
      obtain ⟨e, he, hei⟩ := h
      rcases List.mem_cons.mp he with rfl | he'
      · exact absurd hei hai
      · exact countP_index_eq_one l hl i ⟨e, he', hei⟩

/-- C8 (amended): `compare_genotypes()` returns exactly one entry — with
the tube's label and its current/max/avg heights — for every region that
is set AND has a non-empty `DetectionHistory` (the source additionally
requires `self.tube_regions[i] is not None`, which the claim omits), no
entry for any other region, and the result is ordered by descending
`avg_height` with ties kept in ascending original tube-index order. -/
theorem compare_genotypes_characterization {Img : Type}
    (st : MultiTubeFlyDetector Img) :
    (∀ i, i < st.tube_count.toNat →
      (st.tube_regions.getD i none).isSome →
      st.detection_history.getD i [] ≠ [] →
      entryOf st i ∈ compare_genotypes st ∧
        (compare_genotypes st).countP (fun e => e.index == i) = 1) ∧
    (∀ e ∈ compare_genotypes st,
      e.index < st.tube_count.toNat ∧
      (st.tube_regions.getD e.index none).isSome ∧
      st.detection_history.getD e.index [] ≠ [] ∧
      e = entryOf st e.index) ∧
    (compare_genotypes st).Pairwise GenotypeOrder := by
  have hperm : (compare_genotypes st).Perm (genotype_entries st) :=
    sortByAvgDesc_perm _
  refine ⟨?_, ?_, ?_⟩
  · intro i hi h1 h2
    have hmem : entryOf st i ∈ genotype_entries st := by
      rw [mem_genotype_entries]
      exact ⟨hi, h1, h2, rfl⟩
    refine ⟨hperm.mem_iff.mpr hmem, ?_⟩
    rw [hperm.countP_eq]
    exact countP_index_eq_one _ (genotype_entries_index_sorted st) i
      ⟨entryOf st i, hmem, rfl⟩
  · intro e he
    exact (mem_genotype_entries st e).mp (hperm.mem_iff.mp he)
  · exact sortByAvgDesc_pairwise _ (genotype_entries_index_sorted st)

/-- The detector after one detection pass and then `set_tube_regions([None])`:
a reachable state whose tube 0 has a non-empty history but an unset
region. -/
def c8_st : MultiTubeFlyDetector Unit :=
  set_tube_regions (c2_step c2_st0) [none]

/-- C8 counterexample: in the reachable state `c8_st`, tube 0 has the
non-empty history `[9]`, yet `compare_genotypes()` returns no entry at
all — the source also requires the region to be set, so the claim's
"every region whose DetectionHistory is non-empty" is false. -/
theorem compare_genotypes_drops_unset_region :
    c8_st.detection_history.getD 0 [] = [9] ∧
    compare_genotypes c8_st = [] := by
  refine ⟨rfl, rfl⟩

/-- A concrete two-tube detector for the C8 witness: both regions set,
histories `[5]` and `[9]`, averages `5` and `9`. -/
def c8w_st : MultiTubeFlyDetector Unit :=
  { tube_count := 2
    tube_regions := [some (0, 0, 3, 4), some (4, 0, 3, 4)]
    genotype_names := ["管子1", "管子2"]
    background_frame := none
    threshold := 15
    min_area := 40
    max_area := 500
    fly_positions := [none, none]
    climbing_heights := [5, 9]
    max_heights := [5, 9]
    avg_heights := [5, 9]
    detection_history := [[5], [9]] }

/-- Witness for the amended C8 theorem at the concrete state `c8w_st` and
tube index `0`, with all hypotheses discharged. -/
theorem compare_genotypes_characterization_witness :
    entryOf c8w_st 0 ∈ compare_genotypes c8w_st ∧
      (compare_genotypes c8w_st).countP (fun e => e.index == 0) = 1 :=
  (compare_genotypes_characterization c8w_st).1 0 (by decide) (by decide) (by decide)

/-- `auto_detect_tubes(frame, roi_region, tube_count)`: when a tube count
is given, reset state through `set_tube_count`; default the ROI to the
whole frame; split the ROI into `tube_count` side-by-side regions of
integer width `roi_w // tube_count` (Python floor division, `Int.fdiv`),
each spanning the full ROI height; store and return them.  (With
`tube_count = 0` Python would raise `ZeroDivisionError`; `Int.fdiv _ 0 = 0`
here, and every claim about this function assumes `tube_count ≥ 1`.) -/
def auto_detect_tubes {Img : Type} (st : MultiTubeFlyDetector Img)
    (frame_h frame_w : ℤ) (roi_region : Option Rect) (tc : Option ℤ) :
    List Rect × MultiTubeFlyDetector Img :=
  let st1 := match tc with
    | some n => set_tube_count st n
    | none => st
  match roi_region with
  | none =>
    let tube_width := frame_w.fdiv st1.tube_count
    let regions := (List.range st1.tube_count.toNat).map
      (fun i : ℕ => ((0 : ℤ) + (i : ℤ) * tube_width, (0 : ℤ), tube_width, frame_h))
    (regions, { st1 with tube_regions := regions.map some })
  | some (roi_x, roi_y, roi_w, roi_h) =>
    let tube_width := roi_w.fdiv st1.tube_count
    let regions := (List.range st1.tube_count.toNat).map
      (fun i : ℕ => (roi_x + (i : ℤ) * tube_width, roi_y, tube_width, roi_h))
    (regions, { st1 with tube_regions := regions.map some })

/-- `getD` of a mapped range reads off the function. -/
theorem getD_map_range {β : Type} (f : ℕ → β) (n i : ℕ) (d : β) (h : i < n) :
    ((List.range n).map f).getD i d = f i := by
  rw [List.getD_eq_getElem _ d (by simpa using h), List.getElem_map]
  simp

/-- C9: for every ROI `(rx, ry, rw, rh)` with `rw ≥ 0` and every
`n ≥ 1`, `auto_detect_tubes` produces exactly `n` regions, the `i`-th
being `(rx + i*(rw // n), ry, rw // n, rh)`: equal widths, identical
`y`-origin and height, pairwise disjoint and contiguous (each region's
right edge is at or before the next region's left edge, with equality
for consecutive regions), and the covered columns are exactly
`[rx, rx + rw - rw mod n)` — so when `n` does not divide `rw`, the
rightmost `rw mod n` columns of the ROI belong to no region. -/
theorem auto_detect_tubes_partition {Img : Type}
    (st : MultiTubeFlyDetector Img) (fh fw rx ry rw rh n : ℤ)
    (hn : 1 ≤ n) (hrw : 0 ≤ rw) :
    (auto_detect_tubes st fh fw (some (rx, ry, rw, rh)) (some n)).1.length = n.toNat ∧
    (∀ i : ℕ, i < n.toNat →
      (auto_detect_tubes st fh fw (some (rx, ry, rw, rh)) (some n)).1.getD i (0, 0, 0, 0) =
        (rx + (i : ℤ) * rw.fdiv n, ry, rw.fdiv n, rh)) ∧
    (∀ i j : ℕ, i < j → j < n.toNat →
      (rx + (i : ℤ) * rw.fdiv n) + rw.fdiv n ≤ rx + (j : ℤ) * rw.fdiv n) ∧
    (∀ c : ℤ,
      (∃ i : ℕ, i < n.toNat ∧ rx + (i : ℤ) * rw.fdiv n ≤ c ∧
        c < rx + (i : ℤ) * rw.fdiv n + rw.fdiv n) ↔
      (rx ≤ c ∧ c < rx + rw - rw.fmod n)) ∧
    0 ≤ rw.fmod n ∧ rw.fmod n < n := by
  have hn0 : (0 : ℤ) < n := by omega
  have hw : 0 ≤ rw.fdiv n := Int.fdiv_nonneg hrw (by omega)
  have hkey : n * rw.fdiv n + rw.fmod n = rw := Int.fdiv_add_fmod rw n
  have hr0 : 0 ≤ rw.fmod n := Int.fmod_nonneg' rw hn0
  have hrn : rw.fmod n < n := Int.fmod_lt_of_pos rw hn0
  have hcast : ((n.toNat : ℤ)) = n := Int.toNat_of_nonneg (by omega)
  have hfst : (auto_detect_tubes st fh fw (some (rx, ry, rw, rh)) (some n)).1 =
      (List.range n.toNat).map
        (fun i : ℕ => (rx + (i : ℤ) * rw.fdiv n, ry, rw.fdiv n, rh)) := rfl
  rw [hfst]
  refine ⟨by simp, ?_, ?_, ?_, hr0, hrn⟩
  · intro i hi
    exact getD_map_range _ _ i _ hi
  · intro i j hij hj
    have hij' : (i : ℤ) + 1 ≤ (j : ℤ) := by exact_mod_cast hij
    nlinarith [mul_le_mul_of_nonneg_right hij' hw]
  · intro c
    constructor
    · rintro ⟨i, hi, h1, h2⟩
      have hi1 : (i : ℤ) + 1 ≤ n := by
        have : (i : ℤ) < (n.toNat : ℤ) := by exact_mod_cast hi
        omega
      have : ((i : ℤ) + 1) * rw.fdiv n ≤ n * rw.fdiv n :=
        mul_le_mul_of_nonneg_right hi1 hw
      constructor
      · nlinarith [mul_nonneg (Int.ofNat_nonneg i) hw]
      · nlinarith
    · rintro ⟨h1, h2⟩
      have hnw : c < rx + n * rw.fdiv n := by omega
      rcases eq_or_lt_of_le hw with hw0 | hw0
      · exfalso; nlinarith
      · set w := rw.fdiv n with hwdef
        have hd0 : 0 ≤ c - rx := by omega
        have hqs : w * ((c - rx) / w) + (c - rx) % w = c - rx :=
          Int.ediv_add_emod (c - rx) w
        have hs0 : 0 ≤ (c - rx) % w := Int.emod_nonneg (c - rx) (by omega)
        have hsw : (c - rx) % w < w := Int.emod_lt_of_pos (c - rx) hw0
        have hq0 : 0 ≤ (c - rx) / w := Int.ediv_nonneg hd0 (by omega)
        have hqn : (c - rx) / w < n := by
          by_contra hcon
          push_neg at hcon
          nlinarith [mul_le_mul_of_nonneg_right hcon (le_of_lt hw0)]
        refine ⟨((c - rx) / w).toNat, ?_, ?_, ?_⟩
        · have : (((c - rx) / w).toNat : ℤ) < (n.toNat : ℤ) := by
            rw [Int.toNat_of_nonneg hq0, hcast]; exact hqn
          exact_mod_cast this
        · rw [Int.toNat_of_nonneg hq0]; nlinarith
        · rw [Int.toNat_of_nonneg hq0]; nlinarith

/-- Witness for C9 at the spec's own example: ROI `(100, 50, 400, 300)`
split into 4 tubes. -/
theorem auto_detect_tubes_partition_witness :
    (1 : ℤ) ≤ 4 ∧ (0 : ℤ) ≤ 400 ∧
    ((auto_detect_tubes (mkDetector Unit 5) 480 640
        (some (100, 50, 400, 300)) (some 4)).1.length = (4 : ℤ).toNat ∧
      (∀ i : ℕ, i < (4 : ℤ).toNat →
        (auto_detect_tubes (mkDetector Unit 5) 480 640
            (some (100, 50, 400, 300)) (some 4)).1.getD i (0, 0, 0, 0) =
          (100 + (i : ℤ) * (400 : ℤ).fdiv 4, 50, (400 : ℤ).fdiv 4, 300)) ∧
      (∀ i j : ℕ, i < j → j < (4 : ℤ).toNat →
        (100 + (i : ℤ) * (400 : ℤ).fdiv 4) + (400 : ℤ).fdiv 4 ≤
          100 + (j : ℤ) * (400 : ℤ).fdiv 4) ∧
      (∀ c : ℤ,
        (∃ i : ℕ, i < (4 : ℤ).toNat ∧ 100 + (i : ℤ) * (400 : ℤ).fdiv 4 ≤ c ∧
          c < 100 + (i : ℤ) * (400 : ℤ).fdiv 4 + (400 : ℤ).fdiv 4) ↔
        ((100 : ℤ) ≤ c ∧ c < 100 + 400 - (400 : ℤ).fmod 4)) ∧
      0 ≤ (400 : ℤ).fmod 4 ∧ (400 : ℤ).fmod 4 < 4) :=
  ⟨by norm_num, by norm_num,
    auto_detect_tubes_partition (mkDetector Unit 5) 480 640 100 50 400 300 4
      (by norm_num) (by norm_num)⟩

/-- The per-cluster record kept in `merge_detection_results`'s
`fly_positions` dict: the representative observation's coordinates and
height plus its provenance. -/
structure FlyInfo where
  x : ℤ
  y : ℤ
  height : ℤ
  frame_idx : ℕ
  frame_number : ℤ
  sharpness : ℚ
deriving DecidableEq, Repr

/-- One entry of the `fly_positions` dict: the key is the coordinates the
cluster was created at (`pos_key`, never rewritten), the value the current
representative.  Python dicts preserve insertion order, so the dict is an
association list. -/
abbrev Cluster : Type := (ℤ × ℤ) × FlyInfo

/-- Squared Euclidean distance.  Python computes
`((dx)**2 + (dy)**2) ** 0.5 < 10`; for a nonnegative radicand that is
equivalent to the exact integer comparison `dx^2 + dy^2 < 100` used
here. -/
def sqDist (p q : ℤ × ℤ) : ℤ := (p.1 - q.1) ^ 2 + (p.2 - q.2) ^ 2

/-- Processing of one blob against the cluster list (the inner
`for pos_key, existing_fly in fly_positions.items()` loop with its
`break`): merge into the first cluster whose KEY is within distance 10,
keeping whichever observation has the larger height as the value; if no
key is close enough, append a new cluster keyed at this blob's
coordinates. -/
def mergeFly (fnum : ℤ) (sh : ℚ) (fidx : ℕ) (fly : Blob) :
    List Cluster → List Cluster
  | [] => [((fly.1, fly.2.1), ⟨fly.1, fly.2.1, fly.2.2, fidx, fnum, sh⟩)]
  | (k, info) :: rest =>
    if sqDist (fly.1, fly.2.1) k < 100 then
      (if info.height < fly.2.2 then (k, ⟨fly.1, fly.2.1, fly.2.2, fidx, fnum, sh⟩)
       else (k, info)) :: rest
    else (k, info) :: mergeFly fnum sh fidx fly rest

/-- One frame's blobs for one tube, processed in discovery order. -/
def mergeFrameFlies (fnum : ℤ) (sh : ℚ) (fidx : ℕ) (flies : List Blob)
    (cs : List Cluster) : List Cluster :=
  flies.foldl (fun cs fly => mergeFly fnum sh fidx fly cs) cs

/-- `merge_detection_results(all_detection_results, frame_numbers,
sharpness_scores)`: per tube, fold the frames in order (then blobs in
per-frame order) into the cluster list, skipping frames whose entry for
the tube is `None`; emit the cluster values as `[x, y, height]` triples,
or `None` when the tube ended up empty. -/
def merge_detection_results
    (all_detection_results : List (List (Option (List Blob))))
    (frame_numbers : List ℤ) (sharpness_scores : List ℚ) :
    List (Option (List Blob)) :=
  let tube_count := match all_detection_results with
    | [] => 0
    | r :: _ => r.length
  (List.range tube_count).map (fun tube_idx =>
    let clusters := all_detection_results.enum.foldl (fun cs fr =>
      match fr.2.getD tube_idx none with
      | none => cs
      | some frame_flies =>
        mergeFrameFlies (frame_numbers.getD fr.1 0) (sharpness_scores.getD fr.1 0)
          fr.1 frame_flies cs) []
    let tube_flies := clusters.map (fun c => (c.2.x, c.2.y, c.2.height))
    if tube_flies.isEmpty then none else some tube_flies)

/-- C5 counterexample: one tube, three frames with blobs at `(0,0)` h=1,
`(9,0)` h=5, `(18,0)` h=3.  After frame 2 the cluster's representative is
`(9,0,5)`; the third blob at `(18,0)` is 9 px from that representative
(squared distance 81 < 100), so by the claim it should merge, leaving one
blob.  The code instead measures the distance to the cluster's dict key
`(0,0)` (324 ≥ 100) and starts a second cluster: the merged result holds
two blobs, not one. -/
theorem merge_measures_distance_to_anchor :
    merge_detection_results
      [[some [(0, 0, 1)]], [some [(9, 0, 5)]], [some [(18, 0, 3)]]]
      [0, 1, 2] [0, 0, 0] = [some [(9, 0, 5), (18, 0, 3)]] ∧
    sqDist (18, 0) (9, 0) < 100 := by
  exact ⟨rfl, by decide⟩

/-- C5 (amended): blobs are processed in frame order then per-frame
discovery order; a blob whose Euclidean distance to some existing
cluster's ANCHOR — the dict key fixed at the position of the cluster's
first observation, not the current max-height representative — is
strictly under 10 px merges into the first such cluster, which keeps
whichever of the two observations has the larger height; with no
qualifying cluster a new cluster anchored at this blob is appended.  The
concrete three-frame example with same-location heights `[40, 55, 38]`
still merges to exactly one blob of height `55`. -/
theorem merge_detection_results_rule :
    (∀ (fnum : ℤ) (sh : ℚ) (fidx : ℕ) (fly : Blob) (cs₁ : List Cluster)
        (k : ℤ × ℤ) (info : FlyInfo) (cs₂ : List Cluster),
      (∀ c ∈ cs₁, 100 ≤ sqDist (fly.1, fly.2.1) c.1) →
      sqDist (fly.1, fly.2.1) k < 100 →
      mergeFly fnum sh fidx fly (cs₁ ++ (k, info) :: cs₂) =
        cs₁ ++ (k, if info.height < fly.2.2 then
            ⟨fly.1, fly.2.1, fly.2.2, fidx, fnum, sh⟩ else info) :: cs₂) ∧
    (∀ (fnum : ℤ) (sh : ℚ) (fidx : ℕ) (fly : Blob) (cs : List Cluster),
      (∀ c ∈ cs, 100 ≤ sqDist (fly.1, fly.2.1) c.1) →
      mergeFly fnum sh fidx fly cs =
        cs ++ [((fly.1, fly.2.1), ⟨fly.1, fly.2.1, fly.2.2, fidx, fnum, sh⟩)]) ∧
    merge_detection_results
      [[some [(100, 200, 40)]], [some [(100, 200, 55)]], [some [(100, 200, 38)]]]
      [0, 1, 2] [0, 0, 0] = [some [(100, 200, 55)]] := by
  refine ⟨?_, ?_, rfl⟩
  · intro fnum sh fidx fly cs₁
    induction cs₁ with
    | nil =>
      intro k info cs₂ _ hk
      rw [List.nil_append, List.nil_append, mergeFly, if_pos hk]
      split <;> rfl
    | cons c cs₁ ih =>
      intro k info cs₂ hfar hk
      obtain ⟨ck, cinfo⟩ := c
      rw [List.cons_append, mergeFly,
        if_neg (not_lt.mpr (hfar (ck, cinfo) (List.mem_cons_self _ _))),
        ih k info cs₂ (fun c hc => hfar c (List.mem_cons_of_mem _ hc)) hk,
        List.cons_append]
  · intro fnum sh fidx fly cs
    induction cs with
    | nil => intro _; rfl
    | cons c cs ih =>
      intro hfar
      obtain ⟨ck, cinfo⟩ := c
      rw [mergeFly,
        if_neg (not_lt.mpr (hfar (ck, cinfo) (List.mem_cons_self _ _))),
        ih (fun c hc => hfar c (List.mem_cons_of_mem _ hc)), List.cons_append]

/-- Witness for the amended C5 theorem: both rules applied at concrete
inputs (the counterexample's second and third blobs), hypotheses
discharged. -/
theorem merge_detection_results_rule_witness :
    mergeFly 1 0 1 (9, 0, 5) [((0, 0), ⟨0, 0, 1, 0, 0, 0⟩)] =
      [((0, 0), ⟨9, 0, 5, 1, 1, 0⟩)] ∧
    mergeFly 2 0 2 (18, 0, 3) [((0, 0), ⟨9, 0, 5, 1, 1, 0⟩)] =
      [((0, 0), ⟨9, 0, 5, 1, 1, 0⟩), ((18, 0), ⟨18, 0, 3, 2, 2, 0⟩)] := by
  constructor
  · have h := merge_detection_results_rule.1 1 0 1 (9, 0, 5) []
      (0, 0) ⟨0, 0, 1, 0, 0, 0⟩ [] (by simp) (by decide)
    simpa using h
  · have h := merge_detection_results_rule.2.1 2 0 2 (18, 0, 3)
      [((0, 0), ⟨9, 0, 5, 1, 1, 0⟩)] (by decide)
    simpa using h

/-- Clamp of the manually-selected fly height
(`fly_height = y + h - fly_y`, clipped into `[0, h]`). -/
def clampHeight (y h py : ℤ) : ℤ :=
  let v := y + h - py
  if v < 0 then 0 else if h < v then h else v

/-- The UI-side state touched by manual selection: the detector's regions
and `detection_results` plus the UI's undo stack and mode flag. -/
structure ManualUIState where
  tube_regions : List (Option Rect)
  detection_results : List (Option (List Blob))
  manual_selection_history : List (ℕ × ℤ × ℤ × ℤ)
  manual_selecting : Bool
deriving DecidableEq

/-- `on_fly_selected(tube_index, image_pos)`: ignore clicks outside manual
mode or on a tube without a region; otherwise clamp the height, append the
blob `(x, y, height)` to that tube's current result list (initialising it
when it is `None`), and push the matching edit on the undo stack. -/
def on_fly_selected (st : ManualUIState) (tube_index : ℕ) (image_pos : ℤ × ℤ) :
    ManualUIState :=
  if st.manual_selecting then
    match st.tube_regions.getD tube_index none with
    | none => st
    | some (_x, y, _w, h) =>
      let fly_height := clampHeight y h image_pos.2
      let flies := (st.detection_results.getD tube_index none).getD []
      let newFlies := flies ++ [(image_pos.1, image_pos.2, fly_height)]
      let newHist := st.manual_selection_history ++
        [(tube_index, image_pos.1, image_pos.2, fly_height)]
      { st with
        detection_results := st.detection_results.set tube_index (some newFlies)
        manual_selection_history := newHist }
  else st

/-- Outcome reported by `undo_last_selection`: the "没有可撤销的选择"
message box, or a completed undo. -/
inductive UndoStatus
  | nothingToUndo
  | undone
deriving DecidableEq, Repr

/-- The removal scan of `undo_last_selection`: drop the first entry whose
`x` is within 5 px and whose height within 3 px of the popped edit
(`abs(fx - fly_x) < 5 and abs(fh - fly_height) < 3`, then `break`); keep
everything else. -/
def removeFirstMatch (ex eh : ℤ) : List Blob → List Blob
  | [] => []
  | f :: fs =>
    if |f.1 - ex| < 5 ∧ |f.2.2 - eh| < 3 then fs
    else f :: removeFirstMatch ex eh fs

/-- `undo_last_selection()`: report "nothing to undo" on an empty stack;
otherwise pop the most recent edit and, when that tube's result list
exists, remove the first entry matching the popped edit. -/
def undo_last_selection (st : ManualUIState) : ManualUIState × UndoStatus :=
  match st.manual_selection_history.getLast? with
  | none => (st, .nothingToUndo)
  | some (tube_index, fly_x, _, fly_height) =>
    let st1 := { st with
      manual_selection_history := st.manual_selection_history.dropLast }
    match st1.detection_results.getD tube_index none with
    | none => (st1, .undone)
    | some flies =>
      let newFlies := removeFirstMatch fly_x fly_height flies
      ({ st1 with detection_results :=
          st1.detection_results.set tube_index (some newFlies) }, .undone)

/-- Removing by a popped edit from a list with no matching entry, followed
by one freshly-appended matching blob, removes exactly that blob. -/
theorem removeFirstMatch_append_matching (ex eh : ℤ) :
    ∀ (l : List Blob) (b : Blob),
      (∀ f ∈ l, ¬(|f.1 - ex| < 5 ∧ |f.2.2 - eh| < 3)) →
      (|b.1 - ex| < 5 ∧ |b.2.2 - eh| < 3) →
      removeFirstMatch ex eh (l ++ [b]) = l
  | [], b, _, hb => by rw [List.nil_append, removeFirstMatch, if_pos hb]
  | f :: l, b, hl, hb => by
    rw [List.cons_append, removeFirstMatch,
      if_neg (hl f (List.mem_cons_self _ _)),
      removeFirstMatch_append_matching ex eh l b
        (fun g hg => hl g (List.mem_cons_of_mem _ hg)) hb]

/-- A removal scan that matches nothing is the identity. -/
theorem removeFirstMatch_no_match (ex eh : ℤ) :
    ∀ l : List Blob,
      (∀ f ∈ l, ¬(|f.1 - ex| < 5 ∧ |f.2.2 - eh| < 3)) →
      removeFirstMatch ex eh l = l
  | [], _ => rfl
  | f :: l, hl => by
    rw [removeFirstMatch, if_neg (hl f (List.mem_cons_self _ _)),
      removeFirstMatch_no_match ex eh l
        (fun g hg => hl g (List.mem_cons_of_mem _ hg))]

/-- C7 counterexample: tube 0's list already holds `(125, 10, 80)`.  A
manual add at `(125, 320)` (height 80) followed immediately by `undo()`
does NOT restore the list: the scan matches the OLD entry first (`x`
within 5, height within 3) and removes it, leaving the newly added blob
`(125, 320, 80)` instead of the original `(125, 10, 80)`. -/
theorem undo_after_add_removes_older_blob :
    (undo_last_selection (on_fly_selected
        { tube_regions := [some (0, 0, 200, 400)]
          detection_results := [some [(125, 10, 80)]]
          manual_selection_history := []
          manual_selecting := true } 0 (125, 320))).1.detection_results =
      [some [(125, 320, 80)]] ∧
    [some [((125 : ℤ), (320 : ℤ), (80 : ℤ))]] ≠
      [some [((125 : ℤ), (10 : ℤ), (80 : ℤ))]] := by
  exact ⟨rfl, by decide⟩

/-- C7 (amended): `undo()` pops the most recent edit and removes the FIRST
entry of that region's list within the `(5, 3)` tolerance of the popped
edit (discarding the edit without modifying the result when nothing
matches), so `add` immediately followed by `undo()` restores the region's
current blob list exactly whenever no PRE-EXISTING entry of that list
already matches the added edit; `undo()` on an empty stack is a no-op
reporting "nothing to undo". -/
theorem undo_last_selection_rule :
    (∀ (st : ManualUIState) (tube_index : ℕ) (pos : ℤ × ℤ) (x y w h : ℤ),
      st.manual_selecting = true →
      st.tube_regions.getD tube_index none = some (x, y, w, h) →
      tube_index < st.detection_results.length →
      (∀ f ∈ (st.detection_results.getD tube_index none).getD [],
        ¬(|f.1 - pos.1| < 5 ∧ |f.2.2 - clampHeight y h pos.2| < 3)) →
      (undo_last_selection (on_fly_selected st tube_index pos)).2 = .undone ∧
      (undo_last_selection (on_fly_selected st tube_index pos)).1.manual_selection_history =
        st.manual_selection_history ∧
      (((undo_last_selection (on_fly_selected st tube_index pos)).1.detection_results.getD
          tube_index none).getD []) =
        ((st.detection_results.getD tube_index none).getD []) ∧
      (∀ j, j ≠ tube_index →
        (undo_last_selection (on_fly_selected st tube_index pos)).1.detection_results.getD j none =
          st.detection_results.getD j none)) ∧
    (∀ st : ManualUIState, st.manual_selection_history = [] →
      undo_last_selection st = (st, .nothingToUndo)) ∧
    (∀ (st : ManualUIState) (hist : List (ℕ × ℤ × ℤ × ℤ))
        (tube_index : ℕ) (ex ey eh : ℤ) (flies : List Blob),
      st.manual_selection_history = hist ++ [(tube_index, ex, ey, eh)] →
      st.detection_results.getD tube_index none = some flies →
      undo_last_selection st =
        ({ st with
            manual_selection_history := hist
            detection_results := st.detection_results.set tube_index
              (some (removeFirstMatch ex eh flies)) }, .undone)) := by
  have hpop : ∀ (st : ManualUIState) (hist : List (ℕ × ℤ × ℤ × ℤ))
      (tube_index : ℕ) (ex ey eh : ℤ) (flies : List Blob),
      st.manual_selection_history = hist ++ [(tube_index, ex, ey, eh)] →
      st.detection_results.getD tube_index none = some flies →
      undo_last_selection st =
        ({ st with
            manual_selection_history := hist
            detection_results := st.detection_results.set tube_index
              (some (removeFirstMatch ex eh flies)) }, .undone) := by
    intro st hist tube_index ex ey eh flies hh hres
    rw [undo_last_selection, hh, List.getLast?_concat]
    have hdl : (hist ++ [(tube_index, ex, ey, eh)]).dropLast = hist :=
      List.dropLast_concat
    simp only [hdl, hres]
  refine ⟨?_, ?_, hpop⟩
  · intro st tube_index pos x y w h hsel hreg hlen hnm
    have hadd : on_fly_selected st tube_index pos =
        { st with
          detection_results := st.detection_results.set tube_index
            (some (((st.detection_results.getD tube_index none).getD []) ++
              [(pos.1, pos.2, clampHeight y h pos.2)]))
          manual_selection_history := st.manual_selection_history ++
            [(tube_index, pos.1, pos.2, clampHeight y h pos.2)] } := by
      rw [on_fly_selected, if_pos (by rw [hsel]), hreg]
    have hres1 : (on_fly_selected st tube_index pos).detection_results.getD
        tube_index none =
        some (((st.detection_results.getD tube_index none).getD []) ++
          [(pos.1, pos.2, clampHeight y h pos.2)]) := by
      rw [hadd]
      exact getD_set_same _ _ _ _ hlen
    have hundo := hpop (on_fly_selected st tube_index pos)
      st.manual_selection_history tube_index pos.1 pos.2
      (clampHeight y h pos.2)
      (((st.detection_results.getD tube_index none).getD []) ++
        [(pos.1, pos.2, clampHeight y h pos.2)])
      (by rw [hadd]) hres1
    have hrm : removeFirstMatch pos.1 (clampHeight y h pos.2)
        (((st.detection_results.getD tube_index none).getD []) ++
          [(pos.1, pos.2, clampHeight y h pos.2)]) =
        ((st.detection_results.getD tube_index none).getD []) :=
      removeFirstMatch_append_matching _ _ _ _ hnm
        (by constructor <;> simp)
    refine ⟨by rw [hundo], by rw [hundo], ?_, ?_⟩
    · rw [hundo]
      show (((on_fly_selected st tube_index pos).detection_results.set tube_index
          (some (removeFirstMatch pos.1 (clampHeight y h pos.2) _))).getD
            tube_index none).getD [] = _
      rw [getD_set_same _ tube_index _ none
        (by rw [hadd]; rw [List.length_set]; exact hlen), hrm]
      simp
    · intro j hj
      rw [hundo]
      show ((on_fly_selected st tube_index pos).detection_results.set tube_index
          _).getD j none = _
      rw [getD_set_other _ tube_index j _ none (fun e => hj e.symm), hadd]
      exact getD_set_other _ tube_index j _ none (fun e => hj e.symm)
  · intro st hh
    rw [undo_last_selection, hh]
    rfl

/-- A manual-selection state for the C7 witness: tube 0's existing entry
`(50, 10, 20)` is well outside the `(5, 3)` tolerance of the upcoming
add. -/
def c7w_st : ManualUIState :=
  { tube_regions := [some (0, 0, 200, 400)]
    detection_results := [some [(50, 10, 20)]]
    manual_selection_history := []
    manual_selecting := true }

/-- Witness for the amended C7 theorem: add at `(125, 320)` then undo on
`c7w_st`, hypotheses discharged. -/
theorem undo_last_selection_rule_witness :
    (undo_last_selection (on_fly_selected c7w_st 0 (125, 320))).2 = .undone ∧
    (undo_last_selection (on_fly_selected c7w_st 0 (125, 320))).1.manual_selection_history =
      c7w_st.manual_selection_history ∧
    (((undo_last_selection (on_fly_selected c7w_st 0 (125, 320))).1.detection_results.getD
        0 none).getD []) =
      ((c7w_st.detection_results.getD 0 none).getD []) ∧
    (∀ j, j ≠ 0 →
      (undo_last_selection (on_fly_selected c7w_st 0 (125, 320))).1.detection_results.getD
          j none =
        c7w_st.detection_results.getD j none) :=
  undo_last_selection_rule.1 c7w_st 0 (125, 320) 0 0 200 400 rfl rfl
    (by decide) (by decide)

/-- The frame window scanned by `get_top_3_sharpest_frames`:
`start_frame = max(0, end_frame - 10)` through
`end_frame = min(total - 1, end_frame + 10)`, inclusive.  Frames are
identified by number; the image fetched for frame `n` is abstract and the
Laplacian-variance sharpness computation is an external library call,
modelled as a score function `ℤ → ℚ`.  Every frame in the window is
assumed readable (`get_current_frame` never returns `None`), the regime
the claim describes. -/
def windowFrames (total e : ℤ) : List ℤ :=
  (List.range ((min (total - 1) (e + 10)) - (max 0 (e - 10)) + 1).toNat).map
    (fun i : ℕ => max 0 (e - 10) + (i : ℤ))

/-- The left-fold that keeps the earlier element on ties.  The source
does `frame_scores.sort(key=..., reverse=True)` — a stable descending
sort — and takes `frame_scores[0]`; the head of a stable descending sort
is the first element of the scan attaining the maximal score, which is
exactly what this fold computes (it replaces the candidate only on a
strictly greater score). -/
def pickMax (score : ℤ → ℚ) (b : ℤ) (l : List ℤ) : ℤ :=
  l.foldl (fun b g => if score b < score g then g else b) b

/-- The sharpest-frame selection (`frame_scores[0]` after the stable
descending sort); `none` models the `IndexError` on an empty window. -/
def firstMaxBy (score : ℤ → ℚ) : List ℤ → Option ℤ
  | [] => none
  | f :: fs => some (pickMax score f fs)

/-- The three frame numbers chosen around the sharpest frame `s`:
predecessor and successor clamped to the window, shifted inward when `s`
sits at a window boundary. -/
def tripleNums (start endW s : ℤ) : List ℤ :=
  if max start (s - 1) = s then
    [s, min endW (s + 1), min endW (min endW (s + 1) + 1)]
  else if min endW (s + 1) = s then
    [max start (max start (s - 1) - 1), max start (s - 1), s]
  else [max start (s - 1), s, min endW (s + 1)]

/-- `get_top_3_sharpest_frames()`: score the window, pick the sharpest
frame (stable ties), choose its shifted neighbour triple, and look each
chosen number up among the scored frames (the `next(item for item in
frame_scores if ...)` scan — with every window frame readable the lookup
succeeds exactly for in-window numbers).  Output: `(frame_number, score)`
pairs; the returned images are the frames at those numbers. -/
def get_top_3_sharpest_frames (total e : ℤ) (score : ℤ → ℚ) :
    Option (List (ℤ × ℚ)) :=
  match firstMaxBy score (windowFrames total e) with
  | none => none
  | some s =>
    some ((tripleNums (max 0 (e - 10)) (min (total - 1) (e + 10)) s).filterMap
      (fun n => if n ∈ windowFrames total e then some (n, score n) else none))

/-- Window membership is the interval condition. -/
theorem mem_windowFrames (total e f : ℤ) :
    f ∈ windowFrames total e ↔
      max 0 (e - 10) ≤ f ∧ f ≤ min (total - 1) (e + 10) := by
  unfold windowFrames
  rw [List.mem_map]
  constructor
  · rintro ⟨i, hi, rfl⟩
    rw [List.mem_range] at hi
    omega
  · rintro ⟨h1, h2⟩
    refine ⟨(f - max 0 (e - 10)).toNat, List.mem_range.mpr ?_, ?_⟩ <;> omega

/-- The window is strictly increasing. -/
theorem windowFrames_sorted (total e : ℤ) :
    (windowFrames total e).Pairwise (· < ·) := by
  unfold windowFrames
  exact (List.pairwise_lt_range _).map _ (fun a b h => by omega)

/-- The fold's result is the seed or a scanned element. -/
theorem pickMax_eq_or_mem (score : ℤ → ℚ) :
    ∀ (l : List ℤ) (b : ℤ), pickMax score b l = b ∨ pickMax score b l ∈ l
  | [], _ => Or.inl rfl
  | g :: l, b => by
    have hstep : pickMax score b (g :: l) =
        pickMax score (if score b < score g then g else b) l := rfl
    rw [hstep]
    rcases pickMax_eq_or_mem score l (if score b < score g then g else b) with h | h
    · rw [h]
      split
      · exact Or.inr (List.mem_cons_self _ _)
      · exact Or.inl rfl
    · exact Or.inr (List.mem_cons_of_mem _ h)

/-- The fold's result has maximal score among the seed and the scan. -/
theorem pickMax_le (score : ℤ → ℚ) :
    ∀ (l : List ℤ) (b f : ℤ), (f = b ∨ f ∈ l) →
      score f ≤ score (pickMax score b l)
  | [], b, f, h => by
    rcases h with rfl | h
    · exact le_refl _
    · exact absurd h (List.not_mem_nil _)
  | g :: l, b, f, h => by
    have hb' : score b ≤ score (if score b < score g then g else b) := by
      split
      · rename_i hc; exact le_of_lt hc
      · exact le_refl _
    have hg' : score g ≤ score (if score b < score g then g else b) := by
      split
      · exact le_refl _
      · rename_i hc; exact le_of_not_lt hc
    have hstep : pickMax score b (g :: l) =
        pickMax score (if score b < score g then g else b) l := rfl
    rw [hstep]
    rcases h with rfl | hf
    · exact le_trans hb' (pickMax_le score l _ _ (Or.inl rfl))
    · rcases List.mem_cons.mp hf with rfl | hf'
      · exact le_trans hg' (pickMax_le score l _ _ (Or.inl rfl))
      · exact pickMax_le score l _ f (Or.inr hf')

/-- On a strictly increasing scan, the fold's result is the FIRST element
attaining the maximal score: anything tying it cannot come earlier. -/
theorem pickMax_first (score : ℤ → ℚ) :
    ∀ (l : List ℤ) (b : ℤ), (∀ g ∈ l, b < g) → l.Pairwise (· < ·) →
      ∀ f, (f = b ∨ f ∈ l) → score f = score (pickMax score b l) →
        pickMax score b l ≤ f
  | [], b, _, _, f, h, _ => by
    rcases h with rfl | h
    · exact le_refl _
    · exact absurd h (List.not_mem_nil _)
  | g :: l, b, hbl, hpl, f, h, heq => by
    obtain ⟨hg, hpl'⟩ := List.pairwise_cons.mp hpl
    by_cases hc : score b < score g
    · have hstep : pickMax score b (g :: l) = pickMax score g l := by
        show pickMax score (if score b < score g then g else b) l = _
        rw [if_pos hc]
      have hrge : score g ≤ score (pickMax score g l) :=
        pickMax_le score l g g (Or.inl rfl)
      rw [hstep] at heq ⊢
      rcases h with rfl | hf
      · exact absurd heq (ne_of_lt (lt_of_lt_of_le hc hrge))
      · rcases List.mem_cons.mp hf with rfl | hf'
        · exact pickMax_first score l f hg hpl' f (Or.inl rfl) heq
        · exact pickMax_first score l g hg hpl' f (Or.inr hf') heq
    · have hstep : pickMax score b (g :: l) = pickMax score b l := by
        show pickMax score (if score b < score g then g else b) l = _
        rw [if_neg hc]
      have hbl' : ∀ x ∈ l, b < x := fun x hx => hbl x (List.mem_cons_of_mem _ hx)
      rw [hstep] at heq ⊢
      rcases h with rfl | hf
      · exact pickMax_first score l f hbl' hpl' f (Or.inl rfl) heq
      · rcases List.mem_cons.mp hf with rfl | hf'
        · have h1 : score f ≤ score b := le_of_not_lt hc
          have h2 : score b ≤ score (pickMax score b l) :=
            pickMax_le score l b b (Or.inl rfl)
          have hteq : score b = score (pickMax score b l) :=
            le_antisymm h2 (by rw [← heq]; exact h1)
          have hrb : pickMax score b l ≤ b :=
            pickMax_first score l b hbl' hpl' b (Or.inl rfl) hteq
          exact le_of_lt (lt_of_le_of_lt hrb (hbl f (List.mem_cons_self _ _)))
        · exact pickMax_first score l b hbl' hpl' f (Or.inr hf') heq

/-- The chosen triple stays inside the window, is ascending, has length 3,
and is duplicate-free whenever the window holds at least three frames. -/
theorem tripleNums_spec (start endW s : ℤ) (h1 : start ≤ s) (h2 : s ≤ endW) :
    (∀ n ∈ tripleNums start endW s, start ≤ n ∧ n ≤ endW) ∧
    List.Chain' (· ≤ ·) (tripleNums start endW s) ∧
    (tripleNums start endW s).length = 3 ∧
    (start + 2 ≤ endW → (tripleNums start endW s).Nodup) := by
  unfold tripleNums
  simp only [max_def, min_def]
  split_ifs
  all_goals refine ⟨fun n hn => ?_, ?_, rfl, fun h3 => ?_⟩
  all_goals first
    | (simp only [List.mem_cons, List.not_mem_nil, or_false] at hn
       rcases hn with rfl | rfl | rfl <;> omega)
    | (simp only [List.chain'_cons, List.chain'_singleton, and_true]
       omega)
    | (simp [List.nodup_cons] <;> omega)

/-- The lookup scan keeps everything when every number is in the scored
window. -/
theorem filterMap_window_eq_map (w : List ℤ) (score : ℤ → ℚ) :
    ∀ l : List ℤ, (∀ n ∈ l, n ∈ w) →
      l.filterMap (fun n => if n ∈ w then some (n, score n) else none) =
        l.map (fun n => (n, score n))
  | [], _ => rfl
  | n :: l, h => by
    rw [List.filterMap_cons, if_pos (h n (List.mem_cons_self _ _)),
      List.map_cons, filterMap_window_eq_map w score l
        (fun m hm => h m (List.mem_cons_of_mem _ hm))]

/-- C6: with the target frame valid (`0 ≤ end_frame < total`) and every
window frame readable, `get_top_3_sharpest_frames` picks the frame with
the maximal sharpness score — ties resolved to the first occurrence in
scan order — and returns up to three `(frame_number, score)` pairs
ordered by ascending frame number; whenever the window holds at least
three frames, the result is exactly three pairwise-distinct in-window
frame numbers, the triple shifted inward at window boundaries. -/
theorem get_top_3_sharpest_frames_spec (total e : ℤ) (score : ℤ → ℚ)
    (h0 : 0 ≤ e) (h1 : e < total) :
    ∃ s out, firstMaxBy score (windowFrames total e) = some s ∧
      get_top_3_sharpest_frames total e score = some out ∧
      s ∈ windowFrames total e ∧
      (∀ f ∈ windowFrames total e, score f ≤ score s) ∧
      (∀ f ∈ windowFrames total e, score f = score s → s ≤ f) ∧
      out.length ≤ 3 ∧
      List.Chain' (· ≤ ·) (out.map Prod.fst) ∧
      (∀ p ∈ out, p.1 ∈ windowFrames total e ∧ p.2 = score p.1) ∧
      (3 ≤ (windowFrames total e).length →
        out.length = 3 ∧ (out.map Prod.fst).Nodup) := by
  have hne : windowFrames total e ≠ [] := by
    have he : e ∈ windowFrames total e := by
      rw [mem_windowFrames]; omega
    exact List.ne_nil_of_mem he
  obtain ⟨b, rest, hw⟩ := List.exists_cons_of_ne_nil hne
  have hsorted := windowFrames_sorted total e
  rw [hw] at hsorted
  obtain ⟨hbrest, hrest⟩ := List.pairwise_cons.mp hsorted
  have hfm : firstMaxBy score (windowFrames total e) =
      some (pickMax score b rest) := by
    rw [hw]; rfl
  have hs_mem : pickMax score b rest ∈ windowFrames total e := by
    rw [hw]
    rcases pickMax_eq_or_mem score rest b with h | h
    · rw [h]; exact List.mem_cons_self _ _
    · exact List.mem_cons_of_mem _ h
  have hs_max : ∀ f ∈ windowFrames total e, score f ≤ score (pickMax score b rest) := by
    intro f hf
    rw [hw] at hf
    rcases List.mem_cons.mp hf with rfl | hf'
    · exact pickMax_le score rest f f (Or.inl rfl)
    · exact pickMax_le score rest b f (Or.inr hf')
  have hs_first : ∀ f ∈ windowFrames total e,
      score f = score (pickMax score b rest) → pickMax score b rest ≤ f := by
    intro f hf heq
    rw [hw] at hf
    rcases List.mem_cons.mp hf with rfl | hf'
    · exact pickMax_first score rest f hbrest hrest f (Or.inl rfl) heq
    · exact pickMax_first score rest b hbrest hrest f (Or.inr hf') heq
  have hsb := (mem_windowFrames total e (pickMax score b rest)).mp hs_mem
  obtain ⟨htin, htchain, htlen, htnd⟩ :=
    tripleNums_spec (max 0 (e - 10)) (min (total - 1) (e + 10))
      (pickMax score b rest) hsb.1 hsb.2
  have htw : ∀ n ∈ tripleNums (max 0 (e - 10)) (min (total - 1) (e + 10))
      (pickMax score b rest), n ∈ windowFrames total e := by
    intro n hn
    rw [mem_windowFrames]
    exact htin n hn
  have hout : get_top_3_sharpest_frames total e score =
      some ((tripleNums (max 0 (e - 10)) (min (total - 1) (e + 10))
        (pickMax score b rest)).map (fun n => (n, score n))) := by
    simp only [get_top_3_sharpest_frames, hfm]
    rw [filterMap_window_eq_map _ score _ htw]
  have hfst : ((tripleNums (max 0 (e - 10)) (min (total - 1) (e + 10))
      (pickMax score b rest)).map (fun n => (n, score n))).map Prod.fst =
      tripleNums (max 0 (e - 10)) (min (total - 1) (e + 10))
        (pickMax score b rest) := by
    rw [List.map_map]
    exact List.map_id _
  refine ⟨pickMax score b rest, _, hfm, hout, hs_mem, hs_max, hs_first,
    ?_, ?_, ?_, ?_⟩
  · rw [List.length_map, htlen]
  · rw [hfst]
    exact htchain
  · intro p hp
    obtain ⟨n, hn, rfl⟩ := List.mem_map.mp hp
    exact ⟨htw n hn, rfl⟩
  · intro h3
    have hlw : (windowFrames total e).length =
        ((min (total - 1) (e + 10)) - (max 0 (e - 10)) + 1).toNat := by
      unfold windowFrames
      rw [List.length_map, List.length_range]
    rw [hlw] at h3
    have hse : max 0 (e - 10) + 2 ≤ min (total - 1) (e + 10) := by omega
    refine ⟨by rw [List.length_map, htlen], ?_⟩
    rw [hfst]
    exact htnd hse

/-- Witness for C6: a 21-frame window around frame 15 of a 100-frame
video, with the sharpness score taken to be the frame number itself. -/
theorem get_top_3_sharpest_frames_witness :
    (0 : ℤ) ≤ 15 ∧ (15 : ℤ) < 100 ∧
    ∃ s out, firstMaxBy (fun n => (n : ℚ)) (windowFrames 100 15) = some s ∧
      get_top_3_sharpest_frames 100 15 (fun n => (n : ℚ)) = some out ∧
      s ∈ windowFrames 100 15 ∧
      (∀ f ∈ windowFrames 100 15, (f : ℚ) ≤ (s : ℚ)) ∧
      (∀ f ∈ windowFrames 100 15, (f : ℚ) = (s : ℚ) → s ≤ f) ∧
      out.length ≤ 3 ∧
      List.Chain' (· ≤ ·) (out.map Prod.fst) ∧
      (∀ p ∈ out, p.1 ∈ windowFrames 100 15 ∧ p.2 = (p.1 : ℚ)) ∧
      (3 ≤ (windowFrames 100 15).length →
        out.length = 3 ∧ (out.map Prod.fst).Nodup) :=
  ⟨by norm_num, by norm_num,
    get_top_3_sharpest_frames_spec 100 15 (fun n => (n : ℚ))
      (by norm_num) (by norm_num)⟩
